import Mathlib

/-!
Shallow embedding of the remote-execution reconciliation core
(Edge executor: admission, sync cycle, orphan reclamation, purge,
worker liveness classification).

The implementation module itself is not part of the provided sources;
only its behavioral test suite is. The definitions below are therefore
modelled from the specification, with every threshold and branch
cross-checked against the behavioral tests. Timestamps are natural
numbers (seconds); durations are natural numbers.
-/

namespace EdgeExec

/-- Modelled from the spec: composite Task Identity
(workflow_id, run_id, task_id, map_index, attempt_number);
mirrors the TaskInstanceKey used by the tests. -/
structure TaskIdentity where
  dag_id : String
  run_id : String
  task_id : String
  map_index : Int
  try_number : Nat
  deriving DecidableEq, Repr

/-- Modelled from the spec: job states QUEUED, RUNNING, SUCCESS, FAILED, REMOVED. -/
inductive JobState where
  | queued
  | running
  | success
  | failed
  | removed
  deriving DecidableEq, Repr

/-- SUCCESS, FAILED and REMOVED are terminal; QUEUED and RUNNING are not. -/
def JobState.isTerminal : JobState → Bool
  | .success => true
  | .failed => true
  | .removed => true
  | _ => false

/-- Modelled from the spec: one Job Record row per submitted execution attempt. -/
structure JobRecord where
  key : TaskIdentity
  state : JobState
  queue : String
  command : List String
  concurrency_slots : Nat
  last_update : Nat
  deriving DecidableEq, Repr

/-- Modelled from the spec: worker states. The RUNNING worker state is the
worker's own self-report, opaque to the classifier. -/
inductive WorkerState where
  | idle
  | working
  | offline
  | offline_maintenance
  | unknown
  deriving DecidableEq, Repr

/-- Active self-reported states, subject to staleness classification. -/
def WorkerState.isActive : WorkerState → Bool
  | .idle => true
  | .working => true
  | _ => false

/-- Modelled from the spec: one Worker Record row per registered worker. -/
structure WorkerRecord where
  worker_name : String
  state : WorkerState
  queues : List String
  last_update : Nat
  first_online : Nat
  deriving DecidableEq, Repr

/-- Operator configuration: the two job windows and the worker heartbeat interval. -/
structure Config where
  heartbeat_timeout : Nat
  purge_retention : Nat
  heartbeat_interval : Nat
  deriving DecidableEq, Repr

/-- Modelled from the spec: the engine's private in-memory state — the
running set, plus the set of identities whose running notification has
already been fired (the memory behind the fire-at-most-once rule). -/
structure EngineState where
  running : List TaskIdentity
  notified : List TaskIdentity
  deriving DecidableEq, Repr

/-- Kind of completion/progress callback. -/
inductive CbKind where
  | cbRunning
  | cbSuccess
  | cbFailed
  deriving DecidableEq, Repr

/-- A callback invocation: kind plus the Task Identity it reports. -/
structure Callback where
  kind : CbKind
  key : TaskIdentity
  deriving DecidableEq, Repr

/-- Metric event emitted on orphan reclamation, tagged with the record's
workflow id, queue, task id, and outcome. -/
structure MetricEvent where
  name : String
  dag_id : String
  queue : String
  task_id : String
  outcome : String
  deriving DecidableEq, Repr

/-- The metric event emitted when one record is orphan-reclaimed. -/
def orphanMetric (r : JobRecord) : MetricEvent :=
  ⟨"edge_worker.ti.finish", r.key.dag_id, r.queue, r.key.task_id, "failed"⟩

/-- Modelled from the spec: one record of the running set is processed —
RUNNING fires the running notification on first observation only;
SUCCESS and FAILED fire their callback and remove the identity from the
running set; any other state is still-pending. -/
def processRecord (e : EngineState) (r : JobRecord) : EngineState × List Callback :=
  match r.state with
  | .running =>
      if r.key ∈ e.notified then (e, [])
      else ({ e with notified := r.key :: e.notified }, [⟨.cbRunning, r.key⟩])
  | .success => ({ e with running := e.running.erase r.key }, [⟨.cbSuccess, r.key⟩])
  | .failed => ({ e with running := e.running.erase r.key }, [⟨.cbFailed, r.key⟩])
  | _ => (e, [])

/-- Steps 1–2 of the sync cycle over the loaded records, in order. -/
def processTracked (e : EngineState) : List JobRecord → EngineState × List Callback
  | [] => (e, [])
  | r :: rs =>
      let p := processRecord e r
      let q := processTracked p.1 rs
      (q.1, p.2 ++ q.2)

/-- A RUNNING record whose last_update is older than now - heartbeat_timeout. -/
def isOrphan (cfg : Config) (now : Nat) (r : JobRecord) : Bool :=
  r.state = JobState.running && r.last_update + cfg.heartbeat_timeout < now

/-- Orphan reclamation of one record: force REMOVED and refresh last_update. -/
def reclaimOrphan (now : Nat) (r : JobRecord) : JobRecord :=
  { r with state := .removed, last_update := now }

/-- Step 3 applied to one record: reclaim it when it is an orphan. -/
def reclaimIfOrphan (cfg : Config) (now : Nat) (r : JobRecord) : JobRecord :=
  if isOrphan cfg now r then reclaimOrphan now r else r

/-- A terminal record whose last_update is older than now - purge_retention. -/
def shouldPurge (cfg : Config) (now : Nat) (r : JobRecord) : Bool :=
  r.state.isTerminal && r.last_update + cfg.purge_retention < now

/-- Step 4: delete terminal records past the retention window. -/
def purge (cfg : Config) (now : Nat) (jobs : List JobRecord) : List JobRecord :=
  jobs.filter (fun r => !(shouldPurge cfg now r))

/-- Worker staleness: the behavioral tests fix the threshold at five times
heartbeat_interval (interval 10s, a worker 50s old stays IDLE and a worker
60s old becomes UNKNOWN), strictly compared. -/
def workerStale (cfg : Config) (now : Nat) (w : WorkerRecord) : Bool :=
  w.last_update + 5 * cfg.heartbeat_interval < now

/-- Liveness classification of one worker record as exercised by the tests:
an active worker past the staleness threshold is overwritten to UNKNOWN;
OFFLINE and OFFLINE_MAINTENANCE are never altered. -/
def classifyWorker (cfg : Config) (now : Nat) (w : WorkerRecord) : WorkerRecord :=
  if w.state.isActive && workerStale cfg now w then { w with state := .unknown } else w

/-- Modelled from the spec: the spec's own wording of the liveness rule —
state overwritten to UNKNOWN when now - last_update > heartbeat_interval
(one interval, not five). Kept separate for comparison with the behavior
the tests pin down. -/
def classifyWorkerSpecRule (cfg : Config) (now : Nat) (w : WorkerRecord) : WorkerRecord :=
  if w.state.isActive && w.last_update + cfg.heartbeat_interval < now then
    { w with state := .unknown }
  else w

/-- Result of one sync cycle. -/
structure SyncResult where
  jobs : List JobRecord
  workers : List WorkerRecord
  engine : EngineState
  callbacks : List Callback
  metrics : List MetricEvent
  deriving DecidableEq, Repr

/-- Modelled from the spec: one sync cycle — (1) load records whose
identity is in the running set, (2) process them against the job state
machine firing callbacks, (3) orphan scan over all RUNNING records
independent of the running set, (4) purge of old terminal records, and
worker liveness classification within the same cycle. The orphan scan
runs before the purge. -/
def sync (cfg : Config) (now : Nat) (jobs : List JobRecord)
    (workers : List WorkerRecord) (e : EngineState) : SyncResult :=
  let loaded := jobs.filter (fun r => r.key ∈ e.running)
  let step2 := processTracked e loaded
  let jobs1 := jobs.map (reclaimIfOrphan cfg now)
  let ms := (jobs.filter (isOrphan cfg now)).map orphanMetric
  let jobs2 := purge cfg now jobs1
  let workers1 := workers.map (classifyWorker cfg now)
  ⟨jobs2, workers1, step2.1, step2.2, ms⟩

/-- Validation failure for a malformed submission. -/
inductive ValidationError where
  | malformedCommand
  deriving DecidableEq, Repr

/-- Modelled from the spec: the command payload must represent a task-run
invocation — the tests accept a command starting with
airflow tasks run and reject anything else. -/
def isTaskRunCommand (cmd : List String) : Bool :=
  cmd.take 3 = ["airflow", "tasks", "run"]

/-- One submission: identity, command payload, queue, optional pool slots. -/
structure Submission where
  key : TaskIdentity
  command : List String
  queue : String
  pool_slots : Option Nat
  deriving DecidableEq, Repr

/-- The Job Record the Admission Controller inserts for a valid submission:
QUEUED, concurrency_slots from pool_slots (default 1), last_update = now. -/
def mkJobRecord (now : Nat) (s : Submission) : JobRecord :=
  ⟨s.key, .queued, s.queue, s.command, s.pool_slots.getD 1, now⟩

/-- Modelled from the spec: submit validates the command shape, then
inserts exactly one Job Record row; a malformed command is rejected
before persistence. -/
def submit (now : Nat) (s : Submission) (jobs : List JobRecord) :
    Except ValidationError (List JobRecord) :=
  if isTaskRunCommand s.command then .ok (jobs ++ [mkJobRecord now s])
  else .error .malformedCommand

/-- The executor state visible to the producer side: the persisted store
plus the engine's in-memory state. -/
structure ExecutorState where
  jobs : List JobRecord
  engine : EngineState
  deriving DecidableEq, Repr

/-- submit at the executor level: the in-memory running set is not
updated on admission. -/
def submitE (now : Nat) (s : Submission) (st : ExecutorState) :
    Except ValidationError ExecutorState :=
  match submit now s st.jobs with
  | .ok jobs1 => .ok ⟨jobs1, st.engine⟩
  | .error err => .error err

/-- Modelled from the spec: batch submission processes the ordered list,
fails the whole batch on the first malformed command, and keeps the rows
already inserted for earlier tasks of the batch. -/
def submitBatch (now : Nat) (subs : List Submission) (jobs : List JobRecord) :
    List JobRecord × Option ValidationError :=
  match subs with
  | [] => (jobs, none)
  | s :: rest =>
      match submit now s jobs with
      | .ok jobs1 => submitBatch now rest jobs1
      | .error err => (jobs, some err)

/-- Fields of an ExecuteTask workload that reach the Job Record on queueing. -/
structure ExecuteTaskWorkload where
  key : TaskIdentity
  queue : String
  pool_slots : Nat
  serialized : List String
  deriving DecidableEq, Repr

/-- Modelled from the spec: the Airflow 3 queueing interface accepts either
a well-formed ExecuteTask workload or (erroneously) a legacy 2.10-style
command list, as exercised by the tests. -/
inductive Workload where
  | legacyCommand (command : List String)
  | executeTask (w : ExecuteTaskWorkload)
  deriving DecidableEq, Repr

/-- Type mismatch raised before any persistence. -/
inductive WorkloadError where
  | typeError
  deriving DecidableEq, Repr

/-- Modelled from the spec: queue_workload rejects a legacy command list
with a type error before any persistence and inserts exactly one QUEUED
Job Record row for an ExecuteTask workload. -/
def queue_workload (now : Nat) (w : Workload) (jobs : List JobRecord) :
    Except WorkloadError (List JobRecord) :=
  match w with
  | .legacyCommand _ => .error .typeError
  | .executeTask wl =>
      .ok (jobs ++ [⟨wl.key, .queued, wl.queue, wl.serialized, wl.pool_slots, now⟩])

end EdgeExec


namespace EdgeExec

/-! ### Concrete fixtures used to evaluate the development on closed inputs -/

/-- A small concrete configuration: 600s heartbeat timeout, 300s purge
retention, 10s worker heartbeat interval. -/
def wcfg : Config := ⟨600, 300, 10⟩

/-- Concrete task identity fixture. -/
def keyA : TaskIdentity := ⟨"dagA", "run1", "taskA", -1, 1⟩

/-- Concrete task identity fixture. -/
def keyB : TaskIdentity := ⟨"dagB", "run1", "taskB", -1, 1⟩

/-- Concrete task identity fixture. -/
def keyC : TaskIdentity := ⟨"dagC", "run1", "taskC", -1, 1⟩

/-- A RUNNING record whose heartbeat is stale at time 10000. -/
def staleRun : JobRecord := ⟨keyA, .running, "default", ["mock"], 1, 9000⟩

/-- A RUNNING record whose heartbeat is fresh at time 10000. -/
def freshRun : JobRecord := ⟨keyB, .running, "default", ["mock"], 1, 9900⟩

/-- A SUCCESS record old enough to purge at time 10000. -/
def oldSuccess : JobRecord := ⟨keyA, .success, "default", ["mock"], 1, 9000⟩

/-- A FAILED record old enough to purge at time 10000. -/
def oldFailed : JobRecord := ⟨keyB, .failed, "default", ["mock"], 1, 9000⟩

/-- A SUCCESS record young enough to survive the purge at time 10000. -/
def youngSuccess : JobRecord := ⟨keyC, .success, "default", ["mock"], 1, 9900⟩

/-- An IDLE worker whose heartbeat is 60s old at time 3600 (stale for a
10s heartbeat interval). -/
def workerInactive : WorkerRecord := ⟨"inactive_timed_out_worker", .idle, [], 3540, 0⟩

/-- An IDLE worker whose heartbeat is 50s old at time 3600 (exactly at the
five-interval threshold, hence still fresh). -/
def workerActive : WorkerRecord := ⟨"active_worker", .idle, [], 3550, 0⟩

/-- An OFFLINE worker with an old heartbeat. -/
def workerOffline : WorkerRecord := ⟨"offline_worker", .offline, [], 3550, 0⟩

/-- An OFFLINE_MAINTENANCE worker with an old heartbeat. -/
def workerOffMaint : WorkerRecord :=
  ⟨"offline_maintenance_worker", .offline_maintenance, [], 3550, 0⟩

/-- A well-formed task-run submission with five pool slots. -/
def goodSub : Submission := ⟨keyA, ["airflow", "tasks", "run", "x"], "default", some 5⟩

/-- A second well-formed task-run submission with pool slots unset. -/
def goodSub2 : Submission := ⟨keyB, ["airflow", "tasks", "run", "y"], "default", none⟩

/-- A malformed submission whose command is an arbitrary shell command. -/
def badSub : Submission := ⟨keyC, ["hello", "world"], "default", some 1⟩

end EdgeExec

namespace EdgeExec

/-! ### Helper lemmas about the sync cycle -/

theorem sync_jobs_eq (cfg : Config) (now : Nat) (jobs : List JobRecord)
    (workers : List WorkerRecord) (e : EngineState) :
    (sync cfg now jobs workers e).jobs
      = purge cfg now (jobs.map (reclaimIfOrphan cfg now)) := rfl

theorem sync_metrics_eq (cfg : Config) (now : Nat) (jobs : List JobRecord)
    (workers : List WorkerRecord) (e : EngineState) :
    (sync cfg now jobs workers e).metrics
      = (jobs.filter (isOrphan cfg now)).map orphanMetric := rfl

theorem sync_engine_eq (cfg : Config) (now : Nat) (jobs : List JobRecord)
    (workers : List WorkerRecord) (e : EngineState) :
    (sync cfg now jobs workers e).engine
      = (processTracked e (jobs.filter (fun r => r.key ∈ e.running))).1 := rfl

theorem sync_callbacks_eq (cfg : Config) (now : Nat) (jobs : List JobRecord)
    (workers : List WorkerRecord) (e : EngineState) :
    (sync cfg now jobs workers e).callbacks
      = (processTracked e (jobs.filter (fun r => r.key ∈ e.running))).2 := rfl

theorem sync_workers_eq (cfg : Config) (now : Nat) (jobs : List JobRecord)
    (workers : List WorkerRecord) (e : EngineState) :
    (sync cfg now jobs workers e).workers
      = workers.map (classifyWorker cfg now) := rfl

theorem processRecord_running_sublist (e : EngineState) (r : JobRecord) :
    List.Sublist (processRecord e r).1.running e.running := by
  unfold processRecord
  cases r.state <;> simp
  · split <;> simp
  · exact List.erase_sublist _ _
  · exact List.erase_sublist _ _

theorem processRecord_notified_sup (e : EngineState) (r : JobRecord) :
    e.notified ⊆ (processRecord e r).1.notified := by
  unfold processRecord
  cases r.state <;> simp
  split <;> simp [List.subset_cons_of_subset]

theorem processRecord_notified_sub (e : EngineState) (r : JobRecord) :
    (processRecord e r).1.notified ⊆ r.key :: e.notified := by
  unfold processRecord
  cases r.state <;> simp [List.subset_cons_of_subset]
  split <;> simp [List.subset_cons_of_subset]

theorem processRecord_cb_key (e : EngineState) (r : JobRecord) (c : Callback)
    (hc : c ∈ (processRecord e r).2) : c.key = r.key := by
  cases hs : r.state <;> simp only [processRecord, hs] at hc
  case queued => simp at hc
  case running =>
    split at hc <;> simp at hc
    simp [hc]
  case success =>
    simp at hc
    simp [hc]
  case failed =>
    simp at hc
    simp [hc]
  case removed => simp at hc

theorem processTracked_running_sublist (rs : List JobRecord) (e : EngineState) :
    List.Sublist (processTracked e rs).1.running e.running := by
  induction rs generalizing e with
  | nil => simp [processTracked]
  | cons r rs ih =>
      exact List.Sublist.trans (ih (processRecord e r).1) (processRecord_running_sublist e r)

theorem processTracked_notified_sup (rs : List JobRecord) (e : EngineState) :
    e.notified ⊆ (processTracked e rs).1.notified := by
  induction rs generalizing e with
  | nil => simp [processTracked]
  | cons r rs ih =>
      exact fun k hk => ih (processRecord e r).1 (processRecord_notified_sup e r hk)

theorem processTracked_cbkeys_sublist (rs : List JobRecord) (e : EngineState) :
    List.Sublist ((processTracked e rs).2.map Callback.key) (rs.map (fun r => r.key)) := by
  induction rs generalizing e with
  | nil => simp [processTracked]
  | cons r rs ih =>
      show List.Sublist (((processRecord e r).2 ++ _).map Callback.key) _
      rw [List.map_append, List.map_cons]
      have h1 : List.Sublist ((processRecord e r).2.map Callback.key) [r.key] := by
        unfold processRecord
        cases r.state <;> simp
        split <;> simp
      have h2 := ih (processRecord e r).1
      exact List.Sublist.append h1 h2

theorem processTracked_cb_key_mem (rs : List JobRecord) (e : EngineState) (c : Callback)
    (hc : c ∈ (processTracked e rs).2) : c.key ∈ rs.map (fun r => r.key) :=
  (processTracked_cbkeys_sublist rs e).mem (List.mem_map_of_mem Callback.key hc)

end EdgeExec

namespace EdgeExec

theorem processRecord_success_eq (e : EngineState) (r : JobRecord)
    (hs : r.state = .success) :
    processRecord e r
      = ({ e with running := e.running.erase r.key }, [⟨CbKind.cbSuccess, r.key⟩]) := by
  simp [processRecord, hs]

theorem processRecord_failed_eq (e : EngineState) (r : JobRecord)
    (hs : r.state = .failed) :
    processRecord e r
      = ({ e with running := e.running.erase r.key }, [⟨CbKind.cbFailed, r.key⟩]) := by
  simp [processRecord, hs]

theorem processRecord_running_new_eq (e : EngineState) (r : JobRecord)
    (hs : r.state = .running) (hn : r.key ∉ e.notified) :
    processRecord e r
      = ({ e with notified := r.key :: e.notified }, [⟨CbKind.cbRunning, r.key⟩]) := by
  simp [processRecord, hs, hn]

theorem processRecord_running_seen_eq (e : EngineState) (r : JobRecord)
    (hs : r.state = .running) (hn : r.key ∈ e.notified) :
    processRecord e r = (e, []) := by
  simp [processRecord, hs, hn]

theorem processRecord_queued_eq (e : EngineState) (r : JobRecord)
    (hs : r.state = .queued) : processRecord e r = (e, []) := by
  simp [processRecord, hs]

theorem processRecord_removed_eq (e : EngineState) (r : JobRecord)
    (hs : r.state = .removed) : processRecord e r = (e, []) := by
  simp [processRecord, hs]

theorem processRecord_running_nodup (e : EngineState) (r : JobRecord)
    (h : e.running.Nodup) : (processRecord e r).1.running.Nodup := by
  exact ((processRecord_running_sublist e r).nodup h)

/-- Once a terminal callback has been fired for an identity during the
processing pass, that identity is no longer in the running set at the end
of the pass (the running set never grows during the pass). -/
theorem processTracked_terminal_removed (rs : List JobRecord) (e : EngineState)
    (hrun : e.running.Nodup) (k : TaskIdentity)
    (hc : (⟨CbKind.cbSuccess, k⟩ : Callback) ∈ (processTracked e rs).2
        ∨ (⟨CbKind.cbFailed, k⟩ : Callback) ∈ (processTracked e rs).2) :
    k ∉ (processTracked e rs).1.running := by
  induction rs generalizing e with
  | nil => simp [processTracked] at hc
  | cons r rs ih =>
      have hsplit :
          processTracked e (r :: rs)
            = ((processTracked (processRecord e r).1 rs).1,
               (processRecord e r).2 ++ (processTracked (processRecord e r).1 rs).2) := rfl
      rw [hsplit] at hc ⊢
      simp only [List.mem_append] at hc
      have hnodup1 : (processRecord e r).1.running.Nodup :=
        processRecord_running_nodup e r hrun
      rcases hc with (hc | hc) | (hc | hc)
      · -- success callback emitted by the head record
        have hk : k = r.key ∧ r.state = .success := by
          cases hs : r.state <;> simp only [processRecord, hs] at hc
          case queued => simp at hc
          case running => split at hc <;> simp at hc
          case success =>
            simp at hc
            exact ⟨hc, rfl⟩
          case failed => simp at hc
          case removed => simp at hc
        have he1 : (processRecord e r).1.running = e.running.erase r.key := by
          rw [processRecord_success_eq e r hk.2]
        intro hmem
        have hmem1 : k ∈ (processRecord e r).1.running :=
          (processTracked_running_sublist rs (processRecord e r).1).mem hmem
        rw [he1, hk.1] at hmem1
        exact (hrun.not_mem_erase) hmem1
      · exact ih (processRecord e r).1 hnodup1 (Or.inl hc)
      · -- failed callback emitted by the head record
        have hk : k = r.key ∧ r.state = .failed := by
          cases hs : r.state <;> simp only [processRecord, hs] at hc
          case queued => simp at hc
          case running => split at hc <;> simp at hc
          case success => simp at hc
          case failed =>
            simp at hc
            exact ⟨hc, rfl⟩
          case removed => simp at hc
        have he1 : (processRecord e r).1.running = e.running.erase r.key := by
          rw [processRecord_failed_eq e r hk.2]
        intro hmem
        have hmem1 : k ∈ (processRecord e r).1.running :=
          (processTracked_running_sublist rs (processRecord e r).1).mem hmem
        rw [he1, hk.1] at hmem1
        exact (hrun.not_mem_erase) hmem1
      · exact ih (processRecord e r).1 hnodup1 (Or.inr hc)

end EdgeExec

namespace EdgeExec

/-- An identity whose running notification has already been recorded never
fires the running callback again during a processing pass. -/
theorem processTracked_no_run_cb (rs : List JobRecord) (e : EngineState)
    (k : TaskIdentity) (hk : k ∈ e.notified) :
    (⟨CbKind.cbRunning, k⟩ : Callback) ∉ (processTracked e rs).2 := by
  induction rs generalizing e with
  | nil => simp [processTracked]
  | cons r rs ih =>
      have hsplit :
          processTracked e (r :: rs)
            = ((processTracked (processRecord e r).1 rs).1,
               (processRecord e r).2 ++ (processTracked (processRecord e r).1 rs).2) := rfl
      rw [hsplit]
      simp only [List.mem_append]
      intro hc
      rcases hc with hc | hc
      · cases hs : r.state <;> simp only [processRecord, hs] at hc
        case queued => simp at hc
        case running =>
          split at hc
          · simp at hc
          · simp at hc
            rename_i hnot
            exact hnot (hc ▸ hk)
        case success => simp at hc
        case failed => simp at hc
        case removed => simp at hc
      · exact ih (processRecord e r).1 (processRecord_notified_sup e r hk) hc

/-- A fired running notification is recorded in the notified set. -/
theorem processTracked_run_cb_notified (rs : List JobRecord) (e : EngineState)
    (k : TaskIdentity) (hc : (⟨CbKind.cbRunning, k⟩ : Callback) ∈ (processTracked e rs).2) :
    k ∈ (processTracked e rs).1.notified := by
  induction rs generalizing e with
  | nil => simp [processTracked] at hc
  | cons r rs ih =>
      have hsplit :
          processTracked e (r :: rs)
            = ((processTracked (processRecord e r).1 rs).1,
               (processRecord e r).2 ++ (processTracked (processRecord e r).1 rs).2) := rfl
      rw [hsplit] at hc ⊢
      simp only [List.mem_append] at hc
      rcases hc with hc | hc
      · have hk : k ∈ (processRecord e r).1.notified := by
          cases hs : r.state <;> simp only [processRecord, hs] at hc ⊢
          case queued => simp at hc
          case running =>
            split at hc
            · simp at hc
            · simp at hc
              rename_i hnot
              simp [hnot, hc]
          case success => simp at hc
          case failed => simp at hc
          case removed => simp at hc
        exact processTracked_notified_sup rs (processRecord e r).1 hk
      · exact ih (processRecord e r).1 hc

/-- An identity in the running set stays there when no loaded record with
its key is in a terminal callback state. -/
theorem processTracked_mem_running (rs : List JobRecord) (e : EngineState)
    (k : TaskIdentity) (hk : k ∈ e.running)
    (hr : ∀ r ∈ rs, r.key = k → r.state ≠ JobState.success ∧ r.state ≠ JobState.failed) :
    k ∈ (processTracked e rs).1.running := by
  induction rs generalizing e with
  | nil => simpa [processTracked] using hk
  | cons r rs ih =>
      have hk1 : k ∈ (processRecord e r).1.running := by
        cases hs : r.state <;> simp only [processRecord, hs]
        case queued => exact hk
        case running => split <;> exact hk
        case success =>
          by_cases hkey : r.key = k
          · exact absurd hs ((hr r (by simp) hkey).1)
          · exact (List.mem_erase_of_ne (fun h => hkey h.symm)).mpr hk
        case failed =>
          by_cases hkey : r.key = k
          · exact absurd hs ((hr r (by simp) hkey).2)
          · exact (List.mem_erase_of_ne (fun h => hkey h.symm)).mpr hk
        case removed => exact hk
      exact ih (processRecord e r).1 hk1 (fun r' hr' => hr r' (by simp [hr']))

end EdgeExec

namespace EdgeExec

/-- A loaded SUCCESS record always fires the success callback for its key. -/
theorem processTracked_emits_success (rs : List JobRecord) (e : EngineState)
    (r : JobRecord) (hr : r ∈ rs) (hs : r.state = JobState.success) :
    (⟨CbKind.cbSuccess, r.key⟩ : Callback) ∈ (processTracked e rs).2 := by
  induction rs generalizing e with
  | nil => simp at hr
  | cons r0 rs ih =>
      have hsplit :
          processTracked e (r0 :: rs)
            = ((processTracked (processRecord e r0).1 rs).1,
               (processRecord e r0).2 ++ (processTracked (processRecord e r0).1 rs).2) := rfl
      rw [hsplit]
      simp only [List.mem_append]
      rcases List.mem_cons.mp hr with hr | hr
      · subst hr
        left
        rw [processRecord_success_eq e r hs]
        simp
      · exact Or.inr (ih (processRecord e r0).1 hr)

/-- A loaded FAILED record always fires the failure callback for its key. -/
theorem processTracked_emits_failed (rs : List JobRecord) (e : EngineState)
    (r : JobRecord) (hr : r ∈ rs) (hs : r.state = JobState.failed) :
    (⟨CbKind.cbFailed, r.key⟩ : Callback) ∈ (processTracked e rs).2 := by
  induction rs generalizing e with
  | nil => simp at hr
  | cons r0 rs ih =>
      have hsplit :
          processTracked e (r0 :: rs)
            = ((processTracked (processRecord e r0).1 rs).1,
               (processRecord e r0).2 ++ (processTracked (processRecord e r0).1 rs).2) := rfl
      rw [hsplit]
      simp only [List.mem_append]
      rcases List.mem_cons.mp hr with hr | hr
      · subst hr
        left
        rw [processRecord_failed_eq e r hs]
        simp
      · exact Or.inr (ih (processRecord e r0).1 hr)

/-- A loaded RUNNING record with distinct keys in the pass and no prior
notification fires the running callback for its key. -/
theorem processTracked_emits_running (rs : List JobRecord) (e : EngineState)
    (r : JobRecord) (hnd : (rs.map (fun x => x.key)).Nodup) (hr : r ∈ rs)
    (hs : r.state = JobState.running) (hn : r.key ∉ e.notified) :
    (⟨CbKind.cbRunning, r.key⟩ : Callback) ∈ (processTracked e rs).2 := by
  induction rs generalizing e with
  | nil => simp at hr
  | cons r0 rs ih =>
      have hsplit :
          processTracked e (r0 :: rs)
            = ((processTracked (processRecord e r0).1 rs).1,
               (processRecord e r0).2 ++ (processTracked (processRecord e r0).1 rs).2) := rfl
      rw [hsplit]
      simp only [List.mem_append]
      rcases List.mem_cons.mp hr with hr | hr
      · subst hr
        left
        rw [processRecord_running_new_eq e r hs hn]
        simp
      · right
        have hkey : r0.key ≠ r.key := by
          simp only [List.map_cons, List.nodup_cons] at hnd
          intro h
          exact hnd.1 (h ▸ List.mem_map_of_mem (fun x => x.key) hr)
        have hn1 : r.key ∉ (processRecord e r0).1.notified := by
          intro hmem
          rcases List.mem_cons.mp (processRecord_notified_sub e r0 hmem) with h | h
          · exact hkey h.symm
          · exact hn h
        have hnd1 : (rs.map (fun x => x.key)).Nodup := by
          simp only [List.map_cons, List.nodup_cons] at hnd
          exact hnd.2
        exact ih (processRecord e r0).1 hnd1 hr hn1

/-- With pairwise-distinct keys among the loaded records, the emitted
callback list has no duplicates. -/
theorem processTracked_cbs_nodup (rs : List JobRecord) (e : EngineState)
    (hnd : (rs.map (fun x => x.key)).Nodup) : (processTracked e rs).2.Nodup := by
  have h1 : ((processTracked e rs).2.map Callback.key).Nodup :=
    (processTracked_cbkeys_sublist rs e).nodup hnd
  exact h1.of_map

end EdgeExec

namespace EdgeExec

theorem mem_purge_of_not_should (cfg : Config) (now : Nat) (l : List JobRecord)
    (r : JobRecord) (hr : r ∈ l) (h : shouldPurge cfg now r = false) :
    r ∈ purge cfg now l :=
  List.mem_filter.mpr ⟨hr, by simp [h]⟩

theorem not_mem_purge (cfg : Config) (now : Nat) (l : List JobRecord)
    (r : JobRecord) (h : shouldPurge cfg now r = true) : r ∉ purge cfg now l := by
  intro hmem
  have := (List.mem_filter.mp hmem).2
  simp [h] at this

theorem shouldPurge_reclaim_false (cfg : Config) (now : Nat) (r : JobRecord) :
    shouldPurge cfg now (reclaimOrphan now r) = false := by
  simp [shouldPurge, reclaimOrphan]

theorem shouldPurge_running_false (cfg : Config) (now : Nat) (r : JobRecord)
    (hs : r.state = JobState.running) : shouldPurge cfg now r = false := by
  simp [shouldPurge, hs, JobState.isTerminal]

theorem shouldPurge_queued_false (cfg : Config) (now : Nat) (r : JobRecord)
    (hs : r.state = JobState.queued) : shouldPurge cfg now r = false := by
  simp [shouldPurge, hs, JobState.isTerminal]

theorem reclaimIfOrphan_of_orphan (cfg : Config) (now : Nat) (r : JobRecord)
    (h : isOrphan cfg now r = true) :
    reclaimIfOrphan cfg now r = reclaimOrphan now r := by
  simp [reclaimIfOrphan, h]

theorem reclaimIfOrphan_of_not_orphan (cfg : Config) (now : Nat) (r : JobRecord)
    (h : isOrphan cfg now r = false) : reclaimIfOrphan cfg now r = r := by
  simp [reclaimIfOrphan, h]

theorem reclaimIfOrphan_of_not_running (cfg : Config) (now : Nat) (r : JobRecord)
    (h : r.state ≠ JobState.running) : reclaimIfOrphan cfg now r = r := by
  have : isOrphan cfg now r = false := by
    simp [isOrphan]
    intro hc
    exact absurd hc h
  exact reclaimIfOrphan_of_not_orphan cfg now r this

/-- C1: one sync cycle forces every stale RUNNING record to REMOVED with
last_update refreshed to now, keeps the transformed row in the store, emits
exactly one outcome=failed metric event per orphan with the record's tags,
leaves fresh RUNNING records unchanged, and does all this independently of
the engine's in-memory running set. -/
theorem orphan_scan_correct (cfg : Config) (now : Nat) (jobs : List JobRecord)
    (workers : List WorkerRecord) (e e2 : EngineState) :
    ((sync cfg now jobs workers e).metrics
        = (jobs.filter (isOrphan cfg now)).map orphanMetric)
    ∧ (∀ r ∈ jobs, r.state = JobState.running →
        (r.last_update + cfg.heartbeat_timeout < now →
            reclaimOrphan now r ∈ (sync cfg now jobs workers e).jobs
            ∧ orphanMetric r ∈ (sync cfg now jobs workers e).metrics)
        ∧ (¬ r.last_update + cfg.heartbeat_timeout < now →
            r ∈ (sync cfg now jobs workers e).jobs))
    ∧ (sync cfg now jobs workers e).jobs = (sync cfg now jobs workers e2).jobs
    ∧ (sync cfg now jobs workers e).metrics = (sync cfg now jobs workers e2).metrics := by
  refine ⟨rfl, ?_, rfl, rfl⟩
  intro r hr hs
  constructor
  · intro hstale
    have horph : isOrphan cfg now r = true := by simp [isOrphan, hs, hstale]
    constructor
    · rw [sync_jobs_eq]
      apply mem_purge_of_not_should cfg now _ _ _ (shouldPurge_reclaim_false cfg now r)
      rw [← reclaimIfOrphan_of_orphan cfg now r horph]
      exact List.mem_map_of_mem (reclaimIfOrphan cfg now) hr
    · rw [sync_metrics_eq]
      exact List.mem_map_of_mem orphanMetric (List.mem_filter.mpr ⟨hr, horph⟩)
  · intro hfresh
    have horph : isOrphan cfg now r = false := by
      simp [isOrphan, hs]
      exact Nat.not_lt.mp hfresh
    rw [sync_jobs_eq]
    apply mem_purge_of_not_should cfg now _ _ _ (shouldPurge_running_false cfg now r hs)
    rw [← reclaimIfOrphan_of_not_orphan cfg now r horph]
    exact List.mem_map_of_mem (reclaimIfOrphan cfg now) hr

end EdgeExec

namespace EdgeExec

/-- Witness for C1 at a concrete store: a stale RUNNING record is
reclaimed and generates its metric event; the fresh record is untouched. -/
theorem orphan_scan_correct_witness :
    (staleRun ∈ [staleRun, freshRun] ∧ staleRun.state = JobState.running
      ∧ staleRun.last_update + wcfg.heartbeat_timeout < 10000)
    ∧ reclaimOrphan 10000 staleRun
        ∈ (sync wcfg 10000 [staleRun, freshRun] [] ⟨[], []⟩).jobs
    ∧ orphanMetric staleRun ∈ (sync wcfg 10000 [staleRun, freshRun] [] ⟨[], []⟩).metrics :=
  ⟨⟨by decide, by decide, by decide⟩,
    ((orphan_scan_correct wcfg 10000 [staleRun, freshRun] [] ⟨[], []⟩ ⟨[], []⟩).2.1
      staleRun (by decide) (by decide)).1 (by decide)⟩

end EdgeExec

namespace EdgeExec

/-- C3: for a tracked identity, a SUCCESS record fires the success callback
and leaves the running set, a FAILED record fires the failure callback and
leaves the running set, and a RUNNING record not yet notified fires the
running notification exactly once and stays tracked. -/
theorem tracked_transitions (cfg : Config) (now : Nat) (jobs : List JobRecord)
    (workers : List WorkerRecord) (e : EngineState) (r : JobRecord)
    (hkeys : (jobs.map (fun x => x.key)).Nodup)
    (hrun : e.running.Nodup)
    (hr : r ∈ jobs) (hmem : r.key ∈ e.running) :
    (r.state = JobState.success →
        (⟨CbKind.cbSuccess, r.key⟩ : Callback) ∈ (sync cfg now jobs workers e).callbacks
        ∧ r.key ∉ (sync cfg now jobs workers e).engine.running)
    ∧ (r.state = JobState.failed →
        (⟨CbKind.cbFailed, r.key⟩ : Callback) ∈ (sync cfg now jobs workers e).callbacks
        ∧ r.key ∉ (sync cfg now jobs workers e).engine.running)
    ∧ (r.state = JobState.running → r.key ∉ e.notified →
        (sync cfg now jobs workers e).callbacks.count (⟨CbKind.cbRunning, r.key⟩ : Callback) = 1
        ∧ r.key ∈ (sync cfg now jobs workers e).engine.running) := by
  rw [sync_callbacks_eq, sync_engine_eq]
  set loaded := jobs.filter (fun x => decide (x.key ∈ e.running)) with hloaded
  have hrl : r ∈ loaded := List.mem_filter.mpr ⟨hr, by simp [hmem]⟩
  have hkl : (loaded.map (fun x => x.key)).Nodup := by
    have : List.Sublist (loaded.map (fun x => x.key)) (jobs.map (fun x => x.key)) :=
      (List.filter_sublist jobs).map (fun x => x.key)
    exact this.nodup hkeys
  refine ⟨?_, ?_, ?_⟩
  · intro hs
    exact ⟨processTracked_emits_success loaded e r hrl hs,
      processTracked_terminal_removed loaded e hrun r.key
        (Or.inl (processTracked_emits_success loaded e r hrl hs))⟩
  · intro hs
    exact ⟨processTracked_emits_failed loaded e r hrl hs,
      processTracked_terminal_removed loaded e hrun r.key
        (Or.inr (processTracked_emits_failed loaded e r hrl hs))⟩
  · intro hs hn
    constructor
    · exact List.count_eq_one_of_mem (processTracked_cbs_nodup loaded e hkl)
        (processTracked_emits_running loaded e r hkl hrl hs hn)
    · apply processTracked_mem_running loaded e r.key hmem
      intro r' hr' hkey
      have hr'jobs : r' ∈ jobs := (List.mem_filter.mp hr').1
      have : r' = r := List.inj_on_of_nodup_map hkeys hr'jobs hr hkey
      rw [this, hs]
      exact ⟨fun h => JobState.noConfusion h, fun h => JobState.noConfusion h⟩

/-- Witness for C3 at a concrete store: a tracked SUCCESS record fires
success and is untracked; a tracked fresh RUNNING record fires the running
notification exactly once and stays tracked. -/
theorem tracked_transitions_witness :
    (((oldSuccess :: [freshRun]).map (fun x => x.key)).Nodup
      ∧ ([keyA, keyB] : List TaskIdentity).Nodup
      ∧ oldSuccess ∈ [oldSuccess, freshRun] ∧ oldSuccess.key ∈ [keyA, keyB]
      ∧ oldSuccess.state = JobState.success
      ∧ freshRun ∈ [oldSuccess, freshRun] ∧ freshRun.key ∈ [keyA, keyB]
      ∧ freshRun.state = JobState.running ∧ freshRun.key ∉ ([] : List TaskIdentity))
    ∧ ((⟨CbKind.cbSuccess, oldSuccess.key⟩ : Callback)
          ∈ (sync wcfg 10000 [oldSuccess, freshRun] [] ⟨[keyA, keyB], []⟩).callbacks
        ∧ oldSuccess.key
          ∉ (sync wcfg 10000 [oldSuccess, freshRun] [] ⟨[keyA, keyB], []⟩).engine.running)
    ∧ ((sync wcfg 10000 [oldSuccess, freshRun] [] ⟨[keyA, keyB], []⟩).callbacks.count
          (⟨CbKind.cbRunning, freshRun.key⟩ : Callback) = 1
        ∧ freshRun.key
          ∈ (sync wcfg 10000 [oldSuccess, freshRun] [] ⟨[keyA, keyB], []⟩).engine.running) :=
  ⟨⟨by decide, by decide, by decide, by decide, by decide, by decide, by decide,
      by decide, by decide⟩,
    (tracked_transitions wcfg 10000 [oldSuccess, freshRun] [] ⟨[keyA, keyB], []⟩
      oldSuccess (by decide) (by decide) (by decide) (by decide)).1 (by decide),
    (tracked_transitions wcfg 10000 [oldSuccess, freshRun] [] ⟨[keyA, keyB], []⟩
      freshRun (by decide) (by decide) (by decide) (by decide)).2.2 (by decide) (by decide)⟩

end EdgeExec

namespace EdgeExec

theorem isTerminal_ne_running (s : JobState) (h : s.isTerminal = true) :
    s ≠ JobState.running := by
  cases s <;> simp_all [JobState.isTerminal]

/-- C4: one sync cycle deletes a terminal record older than the retention
window, keeps a terminal record younger than it, and the purge pass never
deletes a QUEUED or RUNNING record regardless of age. -/
theorem purge_correct (cfg : Config) (now : Nat) (jobs : List JobRecord)
    (workers : List WorkerRecord) (e : EngineState) :
    (∀ r ∈ jobs, r.state.isTerminal = true →
        (r.last_update + cfg.purge_retention < now →
            r ∉ (sync cfg now jobs workers e).jobs)
        ∧ (¬ r.last_update + cfg.purge_retention < now →
            r ∈ (sync cfg now jobs workers e).jobs))
    ∧ (∀ (l : List JobRecord), ∀ r ∈ l,
        (r.state = JobState.queued ∨ r.state = JobState.running) →
        r ∈ purge cfg now l) := by
  constructor
  · intro r hr hterm
    constructor
    · intro hold
      rw [sync_jobs_eq]
      apply not_mem_purge
      simp [shouldPurge, hterm, hold]
    · intro hyoung
      rw [sync_jobs_eq]
      have hne : r.state ≠ JobState.running := isTerminal_ne_running r.state hterm
      apply mem_purge_of_not_should
      · rw [← reclaimIfOrphan_of_not_running cfg now r hne]
        exact List.mem_map_of_mem (reclaimIfOrphan cfg now) hr
      · simp [shouldPurge, hyoung]
  · intro l r hr hstate
    rcases hstate with hs | hs
    · exact mem_purge_of_not_should cfg now l r hr (shouldPurge_queued_false cfg now r hs)
    · exact mem_purge_of_not_should cfg now l r hr (shouldPurge_running_false cfg now r hs)

/-- Witness for C4 at a concrete store: an old SUCCESS record is deleted,
a young SUCCESS record survives, and an arbitrarily old RUNNING record is
kept by the purge pass. -/
theorem purge_correct_witness :
    (oldSuccess ∈ [oldSuccess, youngSuccess] ∧ oldSuccess.state.isTerminal = true
      ∧ oldSuccess.last_update + wcfg.purge_retention < 10000
      ∧ youngSuccess.state.isTerminal = true
      ∧ ¬ youngSuccess.last_update + wcfg.purge_retention < 10000)
    ∧ oldSuccess ∉ (sync wcfg 10000 [oldSuccess, youngSuccess] [] ⟨[], []⟩).jobs
    ∧ youngSuccess ∈ (sync wcfg 10000 [oldSuccess, youngSuccess] [] ⟨[], []⟩).jobs
    ∧ staleRun ∈ purge wcfg 10000 [staleRun] :=
  ⟨⟨by decide, by decide, by decide, by decide, by decide⟩,
    ((purge_correct wcfg 10000 [oldSuccess, youngSuccess] [] ⟨[], []⟩).1
      oldSuccess (by decide) (by decide)).1 (by decide),
    ((purge_correct wcfg 10000 [oldSuccess, youngSuccess] [] ⟨[], []⟩).1
      youngSuccess (by decide) (by decide)).2 (by decide),
    (purge_correct wcfg 10000 [oldSuccess, youngSuccess] [] ⟨[], []⟩).2
      [staleRun] staleRun (by decide) (Or.inr (by decide))⟩

/-- C5: within one cycle the orphan scan precedes the purge, so a freshly
reclaimed record survives the cycle that reclaimed it; on a later cycle it
is deleted exactly when its refreshed last_update has aged past the purge
retention window. -/
theorem orphan_before_purge (cfg : Config) (now now2 : Nat) (jobs : List JobRecord)
    (workers workers2 : List WorkerRecord) (e e2 : EngineState) (r : JobRecord)
    (hr : r ∈ jobs) (hs : r.state = JobState.running)
    (hstale : r.last_update + cfg.heartbeat_timeout < now) :
    reclaimOrphan now r ∈ (sync cfg now jobs workers e).jobs
    ∧ (now + cfg.purge_retention < now2 →
        reclaimOrphan now r
          ∉ (sync cfg now2 (sync cfg now jobs workers e).jobs workers2 e2).jobs)
    ∧ (¬ now + cfg.purge_retention < now2 →
        reclaimOrphan now r
          ∈ (sync cfg now2 (sync cfg now jobs workers e).jobs workers2 e2).jobs) := by
  have horph : isOrphan cfg now r = true := by simp [isOrphan, hs, hstale]
  have hmem1 : reclaimOrphan now r ∈ (sync cfg now jobs workers e).jobs := by
    rw [sync_jobs_eq]
    apply mem_purge_of_not_should cfg now _ _ _ (shouldPurge_reclaim_false cfg now r)
    rw [← reclaimIfOrphan_of_orphan cfg now r horph]
    exact List.mem_map_of_mem (reclaimIfOrphan cfg now) hr
  refine ⟨hmem1, ?_, ?_⟩
  · intro hold
    rw [sync_jobs_eq]
    apply not_mem_purge
    simp [shouldPurge, reclaimOrphan, JobState.isTerminal, hold]
  · intro hyoung
    rw [sync_jobs_eq]
    apply mem_purge_of_not_should
    · rw [← reclaimIfOrphan_of_not_running cfg now2 (reclaimOrphan now r)
        (by simp [reclaimOrphan])]
      exact List.mem_map_of_mem (reclaimIfOrphan cfg now2) hmem1
    · simp [shouldPurge, reclaimOrphan, hyoung]

/-- Witness for C5 at a concrete store: the stale RUNNING record survives
the cycle that reclaims it, is still present after a second cycle inside
the retention window, and is gone after a second cycle beyond it. -/
theorem orphan_before_purge_witness :
    (staleRun ∈ [staleRun, freshRun] ∧ staleRun.state = JobState.running
      ∧ staleRun.last_update + wcfg.heartbeat_timeout < 10000
      ∧ ¬ 10000 + wcfg.purge_retention < 10200
      ∧ 10000 + wcfg.purge_retention < 10400)
    ∧ reclaimOrphan 10000 staleRun ∈ (sync wcfg 10000 [staleRun, freshRun] [] ⟨[], []⟩).jobs
    ∧ reclaimOrphan 10000 staleRun
        ∈ (sync wcfg 10200 (sync wcfg 10000 [staleRun, freshRun] [] ⟨[], []⟩).jobs [] ⟨[], []⟩).jobs
    ∧ reclaimOrphan 10000 staleRun
        ∉ (sync wcfg 10400 (sync wcfg 10000 [staleRun, freshRun] [] ⟨[], []⟩).jobs [] ⟨[], []⟩).jobs :=
  ⟨⟨by decide, by decide, by decide, by decide, by decide⟩,
    (orphan_before_purge wcfg 10000 10200 [staleRun, freshRun] [] [] ⟨[], []⟩ ⟨[], []⟩
      staleRun (by decide) (by decide) (by decide)).1,
    (orphan_before_purge wcfg 10000 10200 [staleRun, freshRun] [] [] ⟨[], []⟩ ⟨[], []⟩
      staleRun (by decide) (by decide) (by decide)).2.2 (by decide),
    (orphan_before_purge wcfg 10000 10400 [staleRun, freshRun] [] [] ⟨[], []⟩ ⟨[], []⟩
      staleRun (by decide) (by decide) (by decide)).2.1 (by decide)⟩

end EdgeExec

namespace EdgeExec

/-- Counterexample for C6 as stated: at time 3600 with heartbeat_interval
10s, the IDLE worker whose heartbeat is 50s old exceeds the claimed
one-interval threshold, yet one sync cycle leaves it IDLE (the behavior
the source test fixes); only the spec's literal one-interval rule would
overwrite it to UNKNOWN. -/
theorem worker_liveness_one_interval_counterexample :
    workerActive.state.isActive = true
    ∧ workerActive.last_update + wcfg.heartbeat_interval < 3600
    ∧ (sync wcfg 3600 [] [workerActive] ⟨[], []⟩).workers = [workerActive]
    ∧ workerActive.state = WorkerState.idle
    ∧ (classifyWorkerSpecRule wcfg 3600 workerActive).state = WorkerState.unknown := by
  decide

/-- C6 (amended): during one sync cycle an active worker whose heartbeat
is older than five heartbeat intervals is overwritten to UNKNOWN; an
OFFLINE or OFFLINE_MAINTENANCE worker is never altered by staleness; a
worker within the threshold keeps its record unchanged. -/
theorem worker_liveness_correct (cfg : Config) (now : Nat) (jobs : List JobRecord)
    (workers : List WorkerRecord) (e : EngineState) :
    ∀ w ∈ workers,
      (w.state.isActive = true → w.last_update + 5 * cfg.heartbeat_interval < now →
          { w with state := WorkerState.unknown } ∈ (sync cfg now jobs workers e).workers)
      ∧ ((w.state = WorkerState.offline ∨ w.state = WorkerState.offline_maintenance) →
          w ∈ (sync cfg now jobs workers e).workers)
      ∧ (¬ w.last_update + 5 * cfg.heartbeat_interval < now →
          w ∈ (sync cfg now jobs workers e).workers) := by
  intro w hw
  rw [sync_workers_eq]
  refine ⟨?_, ?_, ?_⟩
  · intro hact hstale
    have : classifyWorker cfg now w = { w with state := WorkerState.unknown } := by
      simp [classifyWorker, hact, workerStale, hstale]
    rw [← this]
    exact List.mem_map_of_mem (classifyWorker cfg now) hw
  · intro hoff
    have : classifyWorker cfg now w = w := by
      rcases hoff with h | h <;> simp [classifyWorker, h, WorkerState.isActive]
    rw [← this]
    exact List.mem_map_of_mem (classifyWorker cfg now) hw
  · intro hfresh
    have : classifyWorker cfg now w = w := by
      simp [classifyWorker, workerStale, hfresh]
    rw [← this]
    exact List.mem_map_of_mem (classifyWorker cfg now) hw

/-- Witness for the amended C6 on the source test's worker population at
time 3600 with a 10s heartbeat interval. -/
theorem worker_liveness_correct_witness :
    (workerInactive ∈ [workerInactive, workerActive, workerOffline, workerOffMaint]
      ∧ workerInactive.state.isActive = true
      ∧ workerInactive.last_update + 5 * wcfg.heartbeat_interval < 3600
      ∧ workerOffline.state = WorkerState.offline
      ∧ ¬ workerActive.last_update + 5 * wcfg.heartbeat_interval < 3600)
    ∧ { workerInactive with state := WorkerState.unknown }
        ∈ (sync wcfg 3600 [] [workerInactive, workerActive, workerOffline, workerOffMaint]
            ⟨[], []⟩).workers
    ∧ workerOffline
        ∈ (sync wcfg 3600 [] [workerInactive, workerActive, workerOffline, workerOffMaint]
            ⟨[], []⟩).workers
    ∧ workerActive
        ∈ (sync wcfg 3600 [] [workerInactive, workerActive, workerOffline, workerOffMaint]
            ⟨[], []⟩).workers :=
  ⟨⟨by decide, by decide, by decide, by decide, by decide⟩,
    (worker_liveness_correct wcfg 3600 []
      [workerInactive, workerActive, workerOffline, workerOffMaint] ⟨[], []⟩
      workerInactive (by decide)).1 (by decide) (by decide),
    (worker_liveness_correct wcfg 3600 []
      [workerInactive, workerActive, workerOffline, workerOffMaint] ⟨[], []⟩
      workerOffline (by decide)).2.1 (Or.inl (by decide)),
    (worker_liveness_correct wcfg 3600 []
      [workerInactive, workerActive, workerOffline, workerOffMaint] ⟨[], []⟩
      workerActive (by decide)).2.2 (by decide)⟩

end EdgeExec

namespace EdgeExec

/-- C7: a submission whose command lacks the task-run shape fails with the
validation error and inserts no row, and a batch fails fast on the first
malformed command while keeping the rows already inserted for the earlier
tasks of the batch. -/
theorem submit_invalid_fail_fast (now : Nat) (bad : Submission) (jobs : List JobRecord)
    (hbad : isTaskRunCommand bad.command = false) :
    submit now bad jobs = Except.error ValidationError.malformedCommand
    ∧ ∀ pre rest, (∀ s ∈ pre, isTaskRunCommand s.command = true) →
        submitBatch now (pre ++ bad :: rest) jobs
          = (jobs ++ pre.map (mkJobRecord now), some ValidationError.malformedCommand) := by
  constructor
  · simp [submit, hbad]
  · intro pre rest hpre
    induction pre generalizing jobs with
    | nil => simp [submitBatch, submit, hbad]
    | cons s pre ih =>
        have hs : isTaskRunCommand s.command = true := hpre s (by simp)
        have hstep :
            submitBatch now ((s :: pre) ++ bad :: rest) jobs
              = submitBatch now (pre ++ bad :: rest) (jobs ++ [mkJobRecord now s]) := by
          simp [submitBatch, submit, hs]
        rw [hstep, ih (jobs ++ [mkJobRecord now s]) (fun x hx => hpre x (by simp [hx]))]
        simp

/-- Witness for C7: a malformed command is rejected, and a batch of one
valid then one malformed submission keeps exactly the row of the valid one. -/
theorem submit_invalid_fail_fast_witness :
    (isTaskRunCommand badSub.command = false
      ∧ (∀ s ∈ [goodSub], isTaskRunCommand s.command = true))
    ∧ submit 10000 badSub [] = Except.error ValidationError.malformedCommand
    ∧ submitBatch 10000 ([goodSub] ++ badSub :: []) []
        = ([] ++ [goodSub].map (mkJobRecord 10000), some ValidationError.malformedCommand) :=
  ⟨⟨by decide, by decide⟩,
    (submit_invalid_fail_fast 10000 badSub [] (by decide)).1,
    (submit_invalid_fail_fast 10000 badSub [] (by decide)).2 [goodSub] [] (by decide)⟩

/-- C8: a valid submission inserts exactly one new Job Record — QUEUED,
with the submitted identity, concurrency_slots equal to pool_slots (1 when
unset) and last_update = now — and leaves the engine's in-memory state,
including the running set, unchanged. -/
theorem submit_valid_inserts_queued (now : Nat) (s : Submission) (st : ExecutorState)
    (h : isTaskRunCommand s.command = true) :
    submitE now s st = Except.ok ⟨st.jobs ++ [mkJobRecord now s], st.engine⟩
    ∧ (mkJobRecord now s).state = JobState.queued
    ∧ (mkJobRecord now s).key = s.key
    ∧ (mkJobRecord now s).last_update = now
    ∧ (∀ n, s.pool_slots = some n → (mkJobRecord now s).concurrency_slots = n)
    ∧ (s.pool_slots = none → (mkJobRecord now s).concurrency_slots = 1) := by
  refine ⟨?_, rfl, rfl, rfl, ?_, ?_⟩
  · simp [submitE, submit, h]
  · intro n hn
    simp [mkJobRecord, hn]
  · intro hn
    simp [mkJobRecord, hn]

/-- Witness for C8 on two concrete submissions: pool_slots 5 yields
concurrency_slots 5, unset pool_slots yields 1, and the engine state is
untouched. -/
theorem submit_valid_inserts_queued_witness :
    (isTaskRunCommand goodSub.command = true ∧ isTaskRunCommand goodSub2.command = true
      ∧ goodSub.pool_slots = some 5 ∧ goodSub2.pool_slots = none)
    ∧ submitE 10000 goodSub ⟨[], ⟨[keyC], []⟩⟩
        = Except.ok ⟨[] ++ [mkJobRecord 10000 goodSub], ⟨[keyC], []⟩⟩
    ∧ (mkJobRecord 10000 goodSub).concurrency_slots = 5
    ∧ (mkJobRecord 10000 goodSub2).concurrency_slots = 1 :=
  ⟨⟨by decide, by decide, by decide, by decide⟩,
    (submit_valid_inserts_queued 10000 goodSub ⟨[], ⟨[keyC], []⟩⟩ (by decide)).1,
    (submit_valid_inserts_queued 10000 goodSub ⟨[], ⟨[keyC], []⟩⟩ (by decide)).2.2.2.2.1
      5 (by decide),
    (submit_valid_inserts_queued 10000 goodSub2 ⟨[], ⟨[keyC], []⟩⟩ (by decide)).2.2.2.2.2
      (by decide)⟩

/-- C10: the Airflow 3 queueing interface rejects a legacy 2.10-style
command list with a type error before touching the store, and accepts a
well-formed ExecuteTask workload by inserting exactly one QUEUED row
carrying the workload's identity, queue and pool slots. -/
theorem queue_workload_correct :
    (∀ (now : Nat) (cmd : List String) (jobs : List JobRecord),
        queue_workload now (Workload.legacyCommand cmd) jobs = Except.error WorkloadError.typeError)
    ∧ (∀ (now : Nat) (wl : ExecuteTaskWorkload) (jobs : List JobRecord) (out : List JobRecord),
        queue_workload now (Workload.executeTask wl) jobs = Except.ok out →
        out.length = jobs.length + 1
        ∧ (∀ r ∈ jobs, r ∈ out)
        ∧ ∃ r, out = jobs ++ [r] ∧ r.state = JobState.queued ∧ r.key = wl.key
            ∧ r.concurrency_slots = wl.pool_slots ∧ r.queue = wl.queue) := by
  constructor
  · intro now cmd jobs
    rfl
  · intro now wl jobs out hout
    have h : out = jobs ++ [⟨wl.key, .queued, wl.queue, wl.serialized, wl.pool_slots, now⟩] := by
      simpa [queue_workload] using hout.symm
    subst h
    refine ⟨by simp, fun r hr => by simp [hr], ⟨_, rfl, rfl, rfl, rfl, rfl⟩⟩

/-- Witness for C10 on a concrete workload. -/
theorem queue_workload_correct_witness :
    queue_workload 10000 (Workload.legacyCommand ["airflow", "tasks", "run", "x"]) []
        = Except.error WorkloadError.typeError
    ∧ ((queue_workload 10000 (Workload.executeTask ⟨keyA, "default", 1, ["wl"]⟩) []).toOption
          = some [⟨keyA, .queued, "default", ["wl"], 1, 10000⟩]
        ∧ [(⟨keyA, JobState.queued, "default", ["wl"], 1, 10000⟩ : JobRecord)].length = 0 + 1) :=
  ⟨(queue_workload_correct).1 10000 ["airflow", "tasks", "run", "x"] [],
    by decide,
    ((queue_workload_correct).2 10000 ⟨keyA, "default", 1, ["wl"]⟩ []
      [⟨keyA, .queued, "default", ["wl"], 1, 10000⟩] rfl).1⟩

end EdgeExec

namespace EdgeExec

theorem reclaimIfOrphan_key (cfg : Config) (now : Nat) (r : JobRecord) :
    (reclaimIfOrphan cfg now r).key = r.key := by
  unfold reclaimIfOrphan
  split <;> rfl

theorem reclaimIfOrphan_slots (cfg : Config) (now : Nat) (r : JobRecord) :
    (reclaimIfOrphan cfg now r).concurrency_slots = r.concurrency_slots := by
  unfold reclaimIfOrphan
  split <;> rfl

/-- C9: one sync cycle preserves the Job Record invariants — every surviving
record keeps concurrency_slots at least 1, no record with a given key moves
from a terminal state back to a non-terminal one, and no record's
last_update decreases (assuming persisted timestamps never lie in the
future); and under the pool_slots precondition of the spec, admission also
preserves the slots invariant. -/
theorem invariants_preserved (cfg : Config) (now : Nat) (jobs : List JobRecord)
    (workers : List WorkerRecord) (e : EngineState)
    (hkeys : (jobs.map (fun x => x.key)).Nodup)
    (hclock : ∀ r ∈ jobs, r.last_update ≤ now)
    (hslots : ∀ r ∈ jobs, 1 ≤ r.concurrency_slots) :
    (∀ r2 ∈ (sync cfg now jobs workers e).jobs, 1 ≤ r2.concurrency_slots)
    ∧ (∀ r ∈ jobs, ∀ r2 ∈ (sync cfg now jobs workers e).jobs, r2.key = r.key →
        (r.state.isTerminal = true → r2.state.isTerminal = true)
        ∧ r.last_update ≤ r2.last_update)
    ∧ (∀ (s : Submission) (jobs2 : List JobRecord),
        (s.pool_slots = none ∨ ∃ n, s.pool_slots = some n ∧ 1 ≤ n) →
        submit now s jobs = Except.ok jobs2 →
        ∀ r2 ∈ jobs2, 1 ≤ r2.concurrency_slots) := by
  have hmap : ∀ r2 ∈ (sync cfg now jobs workers e).jobs,
      ∃ r0 ∈ jobs, r2 = reclaimIfOrphan cfg now r0 := by
    intro r2 h2
    rw [sync_jobs_eq] at h2
    have h3 : r2 ∈ jobs.map (reclaimIfOrphan cfg now) := (List.mem_filter.mp h2).1
    rcases List.mem_map.mp h3 with ⟨r0, hr0, heq⟩
    exact ⟨r0, hr0, heq.symm⟩
  refine ⟨?_, ?_, ?_⟩
  · intro r2 h2
    rcases hmap r2 h2 with ⟨r0, hr0, heq⟩
    rw [heq, reclaimIfOrphan_slots]
    exact hslots r0 hr0
  · intro r hr r2 h2 hkey
    rcases hmap r2 h2 with ⟨r0, hr0, heq⟩
    have hk0 : r0.key = r.key := by
      rw [heq, reclaimIfOrphan_key] at hkey
      exact hkey
    have hr0r : r0 = r := List.inj_on_of_nodup_map hkeys hr0 hr hk0
    subst hr0r
    constructor
    · intro hterm
      rw [heq]
      unfold reclaimIfOrphan
      split
      · simp [reclaimOrphan, JobState.isTerminal]
      · exact hterm
    · rw [heq]
      unfold reclaimIfOrphan
      split
      · exact hclock r0 hr0
      · exact Nat.le_refl _
  · intro s jobs2 hps hsub r2 h2
    have hjobs2 : jobs2 = jobs ++ [mkJobRecord now s] := by
      unfold submit at hsub
      split at hsub
      · exact (Except.ok.inj hsub).symm
      · exact absurd hsub (by simp)
    subst hjobs2
    rcases List.mem_append.mp h2 with h | h
    · exact hslots r2 h
    · have : r2 = mkJobRecord now s := by simpa using h
      subst this
      rcases hps with h | ⟨n, hn, hn1⟩
      · simp [mkJobRecord, h]
      · simpa [mkJobRecord, hn] using hn1

/-- Witness for C9 on a concrete store containing a stale and a fresh
RUNNING record at time 10000. -/
theorem invariants_preserved_witness :
    ((([staleRun, freshRun] : List JobRecord).map (fun x => x.key)).Nodup
      ∧ (∀ r ∈ ([staleRun, freshRun] : List JobRecord), r.last_update ≤ 10000)
      ∧ (∀ r ∈ ([staleRun, freshRun] : List JobRecord), 1 ≤ r.concurrency_slots))
    ∧ (∀ r2 ∈ (sync wcfg 10000 [staleRun, freshRun] [] ⟨[], []⟩).jobs,
        1 ≤ r2.concurrency_slots) :=
  ⟨⟨by decide, by decide, by decide⟩,
    (invariants_preserved wcfg 10000 [staleRun, freshRun] [] ⟨[], []⟩
      (by decide) (by decide) (by decide)).1⟩

end EdgeExec

namespace EdgeExec

/-- The sync cycle preserves distinctness of the store's keys. -/
theorem sync_jobs_keys_nodup (cfg : Config) (now : Nat) (jobs : List JobRecord)
    (workers : List WorkerRecord) (e : EngineState)
    (hkeys : (jobs.map (fun x => x.key)).Nodup) :
    ((sync cfg now jobs workers e).jobs.map (fun x => x.key)).Nodup := by
  rw [sync_jobs_eq]
  have hsub : List.Sublist (purge cfg now (jobs.map (reclaimIfOrphan cfg now)))
      (jobs.map (reclaimIfOrphan cfg now)) := List.filter_sublist _
  have hmm : ((jobs.map (reclaimIfOrphan cfg now)).map (fun x => x.key))
      = jobs.map (fun x => x.key) := by
    rw [List.map_map]
    exact List.map_congr_left (fun r _ => reclaimIfOrphan_key cfg now r)
  have : List.Sublist
      ((purge cfg now (jobs.map (reclaimIfOrphan cfg now))).map (fun x => x.key))
      ((jobs.map (reclaimIfOrphan cfg now)).map (fun x => x.key)) :=
    hsub.map (fun x => x.key)
  rw [hmm] at this
  exact this.nodup hkeys

/-- Every callback fired by a sync cycle reports an identity that was in
the engine's running set when the cycle started. -/
theorem sync_cb_key_tracked (cfg : Config) (now : Nat) (jobs : List JobRecord)
    (workers : List WorkerRecord) (e : EngineState) (c : Callback)
    (hc : c ∈ (sync cfg now jobs workers e).callbacks) : c.key ∈ e.running := by
  rw [sync_callbacks_eq] at hc
  have h1 := processTracked_cb_key_mem _ e c hc
  rcases List.mem_map.mp h1 with ⟨r, hr, hkey⟩
  have := (List.mem_filter.mp hr).2
  simp at this
  exact hkey ▸ this

/-- C2: across two consecutive sync cycles with no external store change,
no callback — running notification, success, or failure — fires more than
once for any one identity. -/
theorem sync_twice_no_repeat_callbacks (cfg : Config) (now now2 : Nat)
    (jobs : List JobRecord) (workers : List WorkerRecord) (e : EngineState)
    (hkeys : (jobs.map (fun x => x.key)).Nodup)
    (hrun : e.running.Nodup) (c : Callback) :
    ((sync cfg now jobs workers e).callbacks
      ++ (sync cfg now2 (sync cfg now jobs workers e).jobs
            (sync cfg now jobs workers e).workers
            (sync cfg now jobs workers e).engine).callbacks).count c ≤ 1 := by
  have hloaded1 : ((jobs.filter (fun r => r.key ∈ e.running)).map (fun x => x.key)).Nodup :=
    ((List.filter_sublist jobs).map (fun x => x.key)).nodup hkeys
  have h1nd : (sync cfg now jobs workers e).callbacks.Nodup := by
    rw [sync_callbacks_eq]
    exact processTracked_cbs_nodup _ e hloaded1
  have hkeys2 : ((sync cfg now jobs workers e).jobs.map (fun x => x.key)).Nodup :=
    sync_jobs_keys_nodup cfg now jobs workers e hkeys
  have h2nd : (sync cfg now2 (sync cfg now jobs workers e).jobs
      (sync cfg now jobs workers e).workers
      (sync cfg now jobs workers e).engine).callbacks.Nodup := by
    rw [sync_callbacks_eq]
    apply processTracked_cbs_nodup
    apply List.Sublist.nodup _ hkeys2
    exact List.Sublist.map (fun x : JobRecord => x.key)
      (List.filter_sublist ((sync cfg now jobs workers e).jobs))
  have hdisj : c ∈ (sync cfg now jobs workers e).callbacks →
      c ∉ (sync cfg now2 (sync cfg now jobs workers e).jobs
            (sync cfg now jobs workers e).workers
            (sync cfg now jobs workers e).engine).callbacks := by
    intro h1 h2
    cases hkind : c.kind
    case cbRunning =>
      have hceta : c = ⟨CbKind.cbRunning, c.key⟩ := by
        cases c
        simp_all
      have hn : c.key ∈ (sync cfg now jobs workers e).engine.notified := by
        rw [sync_engine_eq]
        apply processTracked_run_cb_notified
        rw [← hceta]
        rw [sync_callbacks_eq] at h1
        exact h1
      rw [sync_callbacks_eq, sync_engine_eq] at h2
      rw [hceta] at h2
      exact processTracked_no_run_cb _ _ c.key hn h2
    case cbSuccess =>
      have hceta : c = ⟨CbKind.cbSuccess, c.key⟩ := by
        cases c
        simp_all
      have hout : c.key ∉ (sync cfg now jobs workers e).engine.running := by
        rw [sync_engine_eq]
        apply processTracked_terminal_removed _ e hrun c.key
        left
        rw [← hceta]
        rw [sync_callbacks_eq] at h1
        exact h1
      exact hout (sync_cb_key_tracked cfg now2 _ _ _ c h2)
    case cbFailed =>
      have hceta : c = ⟨CbKind.cbFailed, c.key⟩ := by
        cases c
        simp_all
      have hout : c.key ∉ (sync cfg now jobs workers e).engine.running := by
        rw [sync_engine_eq]
        apply processTracked_terminal_removed _ e hrun c.key
        right
        rw [← hceta]
        rw [sync_callbacks_eq] at h1
        exact h1
      exact hout (sync_cb_key_tracked cfg now2 _ _ _ c h2)
  rw [List.count_append]
  by_cases h1 : c ∈ (sync cfg now jobs workers e).callbacks
  · have hc1 : (sync cfg now jobs workers e).callbacks.count c = 1 :=
      List.count_eq_one_of_mem h1nd h1
    have hc2 : (sync cfg now2 (sync cfg now jobs workers e).jobs
        (sync cfg now jobs workers e).workers
        (sync cfg now jobs workers e).engine).callbacks.count c = 0 :=
      List.count_eq_zero.mpr (hdisj h1)
    rw [hc1, hc2]
  · have hc1 : (sync cfg now jobs workers e).callbacks.count c = 0 :=
      List.count_eq_zero.mpr h1
    rw [hc1]
    simpa using List.nodup_iff_count_le_one.mp h2nd c

/-- Witness for C2: one tracked SUCCESS record and one tracked RUNNING
record; the success callback fires once on cycle one and never again on
cycle two. -/
theorem sync_twice_no_repeat_callbacks_witness :
    ((([oldSuccess, freshRun] : List JobRecord).map (fun x => x.key)).Nodup
      ∧ ([keyA, keyB] : List TaskIdentity).Nodup)
    ∧ ((sync wcfg 10000 [oldSuccess, freshRun] [] ⟨[keyA, keyB], []⟩).callbacks
        ++ (sync wcfg 10060
              (sync wcfg 10000 [oldSuccess, freshRun] [] ⟨[keyA, keyB], []⟩).jobs
              (sync wcfg 10000 [oldSuccess, freshRun] [] ⟨[keyA, keyB], []⟩).workers
              (sync wcfg 10000 [oldSuccess, freshRun] [] ⟨[keyA, keyB], []⟩).engine).callbacks).count
        ⟨CbKind.cbSuccess, keyA⟩ ≤ 1 :=
  ⟨⟨by decide, by decide⟩,
    sync_twice_no_repeat_callbacks wcfg 10000 10060 [oldSuccess, freshRun] []
      ⟨[keyA, keyB], []⟩ (by decide) (by decide) ⟨CbKind.cbSuccess, keyA⟩⟩

end EdgeExec
